import Mathlib

/-!
Verification of the ethoscope-imager pipeline (`src/imager.py`) against its
natural-language specification.

The development is a shallow embedding of `imager.py`:

* the snapshot directory is modelled as a finite association list from file
  names to blobs (`FS`); all paths are taken relative to the `IMG_SNAPSHOTS`
  directory, which is shared by every file the program touches, so dropping
  the common directory prefix loses no information;
* Python's `"%05d" % id` and `"%i" % t` decimal formatting is modelled by an
  explicit fuel-based decimal printer (`natChars`), which produces exactly the
  decimal digit string of a natural number;
* `str.replace("_raw", "")` is modelled by `stripRaw`, a left-to-right
  non-overlapping rewriter specialised to the fixed pattern `_raw`;
* the external labelling tool (`convert`, invoked through `os.system`) is a
  black box; its only effect visible to the program is whether it wrote the
  labelled output file.  It is modelled by an `Option Blob` argument:
  `some b` means the invocation succeeded and wrote `b` to the output path,
  `none` means it exited non-zero and wrote nothing.  `imager.py` never
  inspects the exit status, and the model mirrors that;
* the sqlite archive is a black box as well: a query function
  `String → List (Nat × Nat × Blob)` stands for executing a `SELECT` with a
  `WHERE` clause and streaming the resulting `(id, t, img)` rows;
* Python exceptions are modelled with `Except`.  Note that line 84 of the
  source reads `isinstance(value, Integer)` where `Integer` is an undefined
  name, so evaluating that expression raises `NameError` - the embedding
  reproduces this faithfully.
-/

namespace Imager

/-- Image bytes (the `img` blob column and file contents). -/
abbrev Blob := List Nat

/-- The snapshot directory: an association list from file name to contents.
`write` prepends, `removeFile` deletes every binding for the path, matching
`open(..., "wb")`/`os.remove`. -/
abbrev FS := List (String × Blob)

/-- Model of `os.path.exists` restricted to the snapshot directory. -/
def FS.hasFile (fs : FS) (p : String) : Bool :=
  fs.any (fun e => e.1 == p)

/-- Model of creating/overwriting the file `p` with contents `b`. -/
def FS.write (fs : FS) (p : String) (b : Blob) : FS :=
  (p, b) :: fs

/-- Model of `os.remove(p)`. -/
def FS.removeFile (fs : FS) (p : String) : FS :=
  fs.filter (fun e => !(e.1 == p))

/-- Decimal digit character, as produced by Python's `%d`/`%i` formatting. -/
def digitChar : Nat → Char
  | 0 => '0'
  | 1 => '1'
  | 2 => '2'
  | 3 => '3'
  | 4 => '4'
  | 5 => '5'
  | 6 => '6'
  | 7 => '7'
  | 8 => '8'
  | 9 => '9'
  | _ => '*'

/-- Fuel-based decimal printer: `natChars fuel n` is the decimal digit list of
`n` whenever `n < fuel`.  The fuel makes the recursion structural, so the
kernel can evaluate it. -/
def natChars : Nat → Nat → List Char
  | 0, _ => []
  | fuel+1, n => if n < 10 then [digitChar n] else natChars fuel (n / 10) ++ [digitChar (n % 10)]

/-- Decimal representation of a natural number: Python's `"%i" % n` for
`n ≥ 0`. -/
def natStr (n : Nat) : String :=
  String.mk (natChars (n + 1) n)

/-- Python `str` of an integer (only the sign and decimal digits). -/
def intStr (i : Int) : String :=
  if i < 0 then "-" ++ natStr i.natAbs else natStr i.natAbs

/-- Python `"%05d" % n` for `n ≥ 0`: the decimal string left-padded with
zeros to width 5. -/
def pad5 (n : Nat) : String :=
  String.mk (List.replicate (5 - (natStr n).length) '0' ++ (natStr n).data)

/-- The raw snapshot file name built in `ImageExtractor.save_frame`
(line 65): `"%05d_%i_raw.jpg" % (id, t)`. -/
def rawName (id t : Nat) : String :=
  pad5 id ++ "_" ++ natStr t ++ "_raw.jpg"

/-- The labelled snapshot file name built in `ImageExtractor.save_frame`
(line 66): `"%05d_%i.jpg" % (id, t)`. -/
def labeledName (id t : Nat) : String :=
  pad5 id ++ "_" ++ natStr t ++ ".jpg"

/-- Left-to-right, non-overlapping removal of every occurrence of `_raw`,
the effect of Python's `filename.replace("_raw", "")` (line 158). -/
def stripRawAux : List Char → List Char
  | [] => []
  | '_' :: 'r' :: 'a' :: 'w' :: rest => stripRawAux rest
  | c :: rest => c :: stripRawAux rest

/-- Model of `filename.replace("_raw", "")` (line 158 of `imager.py`). -/
def stripRaw (s : String) : String :=
  String.mk (stripRawAux s.data)

/-- Python exceptions that `imager.py` can raise while building criteria:
`NameError` (evaluating the undefined name `Integer` on line 84) and the
generic `Exception` raised on line 88. -/
inductive PyError where
  | nameError (missing : String)
  | exception (msg : String)

/-- A value passed as the `value` argument of `make_criteria`
(`Union[List, int]` in the source): a list of integers, a single integer, or
anything that is neither a list nor an integer. -/
inductive FilterVal where
  | fl (vs : List Int)
  | fi (n : Int)
  | fother

/-- Python `",".join(pieces)`. -/
def commaJoin : List String → String
  | [] => ""
  | [s] => s
  | s :: rest => s ++ "," ++ commaJoin rest

/-- Embedding of `ImageExtractor.make_criteria` (lines 75-90).

The source tests `isinstance(value, List)` first; for a list it builds
`f"{column} in ({','.join(value)})"` from the `str` of each element.  For any
non-list value it then evaluates `isinstance(value, Integer)` - but `Integer`
is an undefined name, so Python raises `NameError` before the equality
predicate on line 85 or the `raise Exception(...)` on line 88 can ever run. -/
def make_criteria (column : String) (value : FilterVal) : Except PyError String :=
  match value with
  | .fl vs => .ok (column ++ " in (" ++ commaJoin (vs.map intStr) ++ ")")
  | .fi _ => .error (.nameError "Integer")
  | .fother => .error (.nameError "Integer")

/-- Embedding of `EthoscopeImager.get_criteria` (lines 208-228).  Note two
facts about the source, both reproduced here: `get_criteria` takes no `flag`
parameter, and line 220 assigns the PLAIN string
`"{id_criteria} {flag} {t_criteria}"` (the `f` prefix is missing), so when
both filters are given the returned predicate is that literal template. -/
def get_criteria (id t : Option FilterVal) : Except PyError (Option String) :=
  match id, t with
  | none, none => .ok none
  | some i, none => (make_criteria "id" i).map some
  | none, some tv => (make_criteria "t" tv).map some
  | some i, some tv =>
    match make_criteria "id" i with
    | .error e => .error e
    | .ok _ =>
      match make_criteria "t" tv with
      | .error e => .error e
      | .ok _ => .ok (some "{id_criteria} {flag} {t_criteria}")

/-- Embedding of `ImageExtractor.save_frame` (lines 60-73): if either the
labelled or the raw file already exists, return the raw path and leave the
directory untouched; otherwise copy the blob to the raw path. -/
def save_frame (fs : FS) (id t : Nat) (blob : Blob) : String × FS :=
  let file_name_raw := rawName id t
  let file_name := labeledName id t
  if fs.hasFile file_name || fs.hasFile file_name_raw then
    (file_name_raw, fs)
  else
    (file_name_raw, fs.write file_name_raw blob)

/-- Embedding of `ImageExtractor.get_frame` (lines 92-110).  `query c` stands
for executing `SELECT id, t, img FROM IMG_SNAPSHOTS WHERE c` and returning
the matching rows; the last component counts how many queries were run.
`criteria = None` short-circuits to the distinguished result `none` without
touching the database. -/
def get_frame (query : String → List (Nat × Nat × Blob)) (fs : FS)
    (criteria : Option String) : Option (List String) × FS × Nat :=
  match criteria with
  | none => (none, fs, 0)
  | some c =>
    let rows := query c
    let folded := rows.foldl
      (fun (acc : List String × FS) row =>
        let r := save_frame acc.2 row.1 row.2.1 row.2.2
        (acc.1 ++ [r.1], r.2))
      ([], fs)
    (some folded.1, folded.2, 1)

/-- Embedding of `ImageExtractor.list_snapshots` (lines 32-33):
`glob("*.jpg")` over the snapshot directory. -/
def list_snapshots (fs : FS) : List String :=
  (fs.filter (fun e => e.1.endsWith ".jpg")).map (fun e => e.1)

/-- The module-level override on line 16 of `imager.py`. -/
def ANNOTATE : Bool := true

/-- Embedding of `Annotator.annotate_image` (lines 143-166) for one frame.

`tool` models the `convert` subprocess launched through `os.system`:
`some b` means it succeeded and wrote `b` to the output path, `none` means it
exited non-zero and wrote nothing.  The returned number counts tool
invocations (0 or 1).  The timestamp label only affects the text baked into
the command string, not which files exist, so it does not appear here.  The
source never checks the exit status: after the `os.system` call it
unconditionally executes `os.remove(filename)`. -/
def annotate_image (tool : Option Blob) (fs : FS) (filename : String) : FS × Nat :=
  let out := stripRaw filename
  if fs.hasFile out then
    (fs, 0)
  else
    let fs1 := match tool with
      | some b => fs.write out b
      | none => fs
    (fs1.removeFile filename, 1)

/-- Embedding of `Annotator.annotate` (lines 169-184): `None` input returns
immediately; otherwise every file is pushed through `annotate_image` (the
pool is modelled by a sequential fold - each worker owns a disjoint file) and
the returned names are the inputs with `_raw` stripped. -/
def annotate (tool : Option Blob) (fs : FS) (filenames : Option (List String)) :
    Option (List String) × FS × Nat :=
  match filenames with
  | none => (none, fs, 0)
  | some fl =>
    let folded := fl.foldl
      (fun (acc : FS × Nat) f =>
        let r := annotate_image tool acc.1 f
        (r.1, acc.2 + r.2))
      (fs, 0)
    (some (fl.map stripRaw), folded.1, folded.2)

/-- Python truthiness of the `filenames` variable in `run`: `None` and the
empty list are falsy. -/
def truthy : Option (List String) → Bool
  | none => false
  | some l => !l.isEmpty

/-- The external collaborators of one `EthoscopeImager`: the sqlite archive
(`query`), the labelling tool behaviour (`tool`) and the base name of the
archive file (used for the video output name). -/
structure Env where
  query : String → List (Nat × Nat × Blob)
  tool : Option Blob
  dbname : String

/-- Embedding of `EthoscopeImager.run` (lines 231-245).  `_flag` mirrors the
unused `flag` parameter of the source (it is never forwarded to
`get_criteria`).  The video branch only returns the output path
`filename + ".mp4"`; the encoder itself is external. -/
def run (env : Env) (fs : FS) (id t : Option FilterVal) (_flag : String)
    (annotateF video : Bool) : Except PyError (List String) × FS :=
  match get_criteria id t with
  | .error e => (.error e, fs)
  | .ok criteria =>
    let r1 := get_frame env.query fs criteria
    let filenames := r1.1
    let fs1 := r1.2.1
    let r2 :=
      if (annotateF || ANNOTATE) && truthy filenames then
        annotate env.tool fs1 filenames
      else (filenames, fs1, 0)
    let filenames2 := r2.1
    let fs2 := r2.2.1
    let filenames3 := if video then some [env.dbname ++ ".mp4"] else filenames2
    match filenames3 with
    | none => (.ok (list_snapshots fs2), fs2)
    | some fl => (.ok fl, fs2)

/-- Embedding of `ImageExtractor.get_t0` (lines 36-52): fold over the rows of
the `METADATA` table, starting from `t0 = 0` and overwriting `t0` with
`float(value)` each time a row whose first column is `"date_time"` appears.
`toFloat` stands for Python's `float(...)` conversion. -/
def get_t0 (toFloat : String → Rat) (rows : List (String × String)) : Rat :=
  rows.foldl (fun t0 fv => if fv.1 == "date_time" then toFloat fv.2 else t0) 0

/-- Splitting a character list at every comma; used to state that the body of
a membership predicate lists the requested values exactly once, in order. -/
def splitComma : List Char → List (List Char)
  | [] => [[]]
  | c :: rest =>
    match splitComma rest with
    | [] => [[c]]
    | p :: ps => if c = ',' then [] :: p :: ps else (c :: p) :: ps

/-- Numeric value of a decimal digit character. -/
def charVal (c : Char) : Nat := c.toNat - 48

/-- Value of a decimal digit string under positional notation. -/
def listVal : List Char → Nat
  | [] => 0
  | c :: cs => charVal c * 10 ^ cs.length + listVal cs

/-! ### Basic facts about the filesystem model -/

lemma FS.hasFile_write_self (fs : FS) (p : String) (b : Blob) :
    (fs.write p b).hasFile p = true := by
  simp [FS.write, FS.hasFile]

lemma FS.hasFile_write_of_ne (fs : FS) (p q : String) (b : Blob) (h : q ≠ p) :
    (fs.write p b).hasFile q = fs.hasFile q := by
  have h2 : (p == q) = false := beq_eq_false_iff_ne.mpr (fun hpq => h hpq.symm)
  simp [FS.write, FS.hasFile, List.any_cons, h2]

lemma FS.hasFile_removeFile_self (fs : FS) (p : String) :
    (fs.removeFile p).hasFile p = false := by
  induction fs with
  | nil => rfl
  | cons e fs ih =>
    simp only [FS.removeFile, FS.hasFile, List.filter_cons] at ih ⊢
    by_cases h1 : e.1 = p
    · simp [h1, ih]
    · have h2 : (e.1 == p) = false := beq_eq_false_iff_ne.mpr h1
      simp [h2, List.any_cons, ih]

lemma FS.hasFile_removeFile_of_ne (fs : FS) (p q : String) (h : q ≠ p) :
    (fs.removeFile p).hasFile q = fs.hasFile q := by
  induction fs with
  | nil => rfl
  | cons e fs ih =>
    show ((e :: fs).filter (fun x => !(x.1 == p))).any (fun x => x.1 == q)
        = (e :: fs).any (fun x => x.1 == q)
    by_cases h1 : e.1 = p
    · have hcond : (!(e.1 == p)) = false := by simp [h1]
      have h2 : (e.1 == q) = false := by
        apply beq_eq_false_iff_ne.mpr
        rw [h1]
        exact fun hpq => h hpq.symm
      rw [List.filter_cons, hcond, List.any_cons, h2]
      simpa [FS.removeFile, FS.hasFile] using ih
    · have hcond : (!(e.1 == p)) = true := by simp [h1]
      have ih' : ((fs.filter (fun x => !(x.1 == p))).any (fun x => x.1 == q))
          = fs.any (fun x => x.1 == q) := by
        simpa [FS.removeFile, FS.hasFile] using ih
      rw [List.filter_cons, hcond, if_pos rfl, List.any_cons, ih', List.any_cons]

/-! ### Facts about decimal digit strings -/

lemma digitChar_toNat (n : Nat) (h : n < 10) : (digitChar n).toNat = 48 + n := by
  interval_cases n <;> rfl

lemma digitChar_digit (n : Nat) (h : n < 10) :
    48 ≤ (digitChar n).toNat ∧ (digitChar n).toNat ≤ 57 := by
  rw [digitChar_toNat n h]; omega

lemma charVal_digitChar (n : Nat) (h : n < 10) : charVal (digitChar n) = n := by
  simp [charVal, digitChar_toNat n h]

/-- Digit strings are never empty. -/
lemma natChars_ne_nil (fuel n : Nat) (h : n < fuel) : natChars fuel n ≠ [] := by
  cases fuel with
  | zero => omega
  | succ fuel =>
    by_cases h10 : n < 10
    · simp [natChars, h10]
    · simp [natChars, h10]

/-- All characters produced by the decimal printer are digits. -/
lemma natChars_digits (fuel : Nat) :
    ∀ n, n < fuel → ∀ c ∈ natChars fuel n, 48 ≤ c.toNat ∧ c.toNat ≤ 57 := by
  induction fuel with
  | zero => intro n h; omega
  | succ fuel ih =>
    intro n h c hc
    by_cases h10 : n < 10
    · simp [natChars, h10] at hc
      subst hc
      exact digitChar_digit n h10
    · simp only [natChars, h10, if_false, List.mem_append, List.mem_singleton] at hc
      rcases hc with hc | hc
      · have hlt : n / 10 < fuel := by
          have := Nat.div_lt_self (by omega : 0 < n) (by omega : 1 < 10)
          omega
        exact ih (n / 10) hlt c hc
      · subst hc
        exact digitChar_digit (n % 10) (Nat.mod_lt n (by omega))

lemma listVal_append_single (xs : List Char) (c : Char) :
    listVal (xs ++ [c]) = 10 * listVal xs + charVal c := by
  induction xs with
  | nil => simp [listVal]
  | cons a xs ih =>
    have h3 : (xs ++ [c]).length = xs.length + 1 := by simp
    calc listVal ((a :: xs) ++ [c])
        = charVal a * 10 ^ (xs ++ [c]).length + listVal (xs ++ [c]) := rfl
      _ = charVal a * 10 ^ (xs.length + 1) + (10 * listVal xs + charVal c) := by rw [h3, ih]
      _ = 10 * (charVal a * 10 ^ xs.length + listVal xs) + charVal c := by ring
      _ = 10 * listVal (a :: xs) + charVal c := rfl

/-- The decimal printer is value-correct. -/
lemma listVal_natChars (fuel : Nat) :
    ∀ n, n < fuel → listVal (natChars fuel n) = n := by
  induction fuel with
  | zero => intro n h; omega
  | succ fuel ih =>
    intro n h
    by_cases h10 : n < 10
    · simp [natChars, h10, listVal, charVal_digitChar n h10]
    · have hlt : n / 10 < fuel := by
        have := Nat.div_lt_self (by omega : 0 < n) (by omega : 1 < 10)
        omega
      simp only [natChars, h10, if_false, listVal_append_single, ih (n / 10) hlt,
        charVal_digitChar (n % 10) (Nat.mod_lt n (by omega))]
      omega

/-- A number below `10 ^ k` prints with at most `k` digits. -/
lemma natChars_length_le (fuel : Nat) :
    ∀ n k, n < fuel → 1 ≤ k → n < 10 ^ k → (natChars fuel n).length ≤ k := by
  induction fuel with
  | zero => intro n k h; omega
  | succ fuel ih =>
    intro n k h hk hnk
    by_cases h10 : n < 10
    · simp [natChars, h10]; omega
    · have hlt : n / 10 < fuel := by
        have := Nat.div_lt_self (by omega : 0 < n) (by omega : 1 < 10)
        omega
      have hk2 : 2 ≤ k := by
        by_contra hcon
        have : k = 1 := by omega
        subst this
        simp at hnk
        omega
      have hdiv : n / 10 < 10 ^ (k - 1) := by
        have h1 : n < 10 ^ (k - 1) * 10 := by
          have : 10 ^ (k - 1) * 10 = 10 ^ k := by
            rw [← pow_succ]
            congr 1
            omega
          omega
        exact Nat.div_lt_iff_lt_mul (by omega) |>.mpr h1
      have := ih (n / 10) (k - 1) hlt (by omega) hdiv
      simp only [natChars, h10, if_false, List.length_append, List.length_cons,
        List.length_nil]
      omega

/-- The value of an all-digit string is below `10 ^ length`. -/
lemma listVal_lt_pow (l : List Char) (h : ∀ c ∈ l, 48 ≤ c.toNat ∧ c.toNat ≤ 57) :
    listVal l < 10 ^ l.length := by
  induction l with
  | nil => simp [listVal]
  | cons c cs ih =>
    have hc := h c (List.mem_cons_self c cs)
    have hcs : listVal cs < 10 ^ cs.length := ih (fun d hd => h d (List.mem_cons_of_mem c hd))
    have hcv : charVal c ≤ 9 := by simp [charVal]; omega
    simp only [listVal, List.length_cons, pow_succ]
    have h1 : charVal c * 10 ^ cs.length ≤ 9 * 10 ^ cs.length :=
      Nat.mul_le_mul_right _ hcv
    have h2 : 0 < 10 ^ cs.length := Nat.pos_pow_of_pos _ (by omega)
    omega

/-- Core lexicographic lemma: equal-width all-digit prefixes compare the same
way as their numeric values, whatever follows them. -/
lemma lex_append_of_listVal_lt :
    ∀ (l1 l2 u v : List Char), l1.length = l2.length →
      (∀ c ∈ l1, 48 ≤ c.toNat ∧ c.toNat ≤ 57) →
      (∀ c ∈ l2, 48 ≤ c.toNat ∧ c.toNat ≤ 57) →
      listVal l1 < listVal l2 →
      List.Lex (· < ·) (l1 ++ u) (l2 ++ v) := by
  intro l1
  induction l1 with
  | nil =>
    intro l2 u v hlen _ _ hval
    cases l2 with
    | nil => simp [listVal] at hval
    | cons b l2' => simp at hlen
  | cons a l1' ih =>
    intro l2 u v hlen hd1 hd2 hval
    cases l2 with
    | nil => simp at hlen
    | cons b l2' =>
      have hlen' : l1'.length = l2'.length := by simpa using hlen
      have ha := hd1 a (List.mem_cons_self a l1')
      have hb := hd2 b (List.mem_cons_self b l2')
      rcases lt_trichotomy (charVal a) (charVal b) with hab | hab | hab
      · have : a < b := by
          apply Char.lt_iff_val_lt_val.mpr
          show a.toNat < b.toNat
          simp [charVal] at hab
          omega
        exact List.Lex.rel this
      · have heq : a = b := by
          apply Char.eq_of_val_eq
          apply UInt32.ext
          show a.toNat = b.toNat
          simp [charVal] at hab
          omega
        subst heq
        have hval' : listVal l1' < listVal l2' := by
          simp only [listVal, hlen'] at hval
          omega
        exact List.Lex.cons
          (ih l2' u v hlen' (fun c hc => hd1 c (List.mem_cons_of_mem a hc))
            (fun c hc => hd2 c (List.mem_cons_of_mem a hc)) hval')
      · exfalso
        have h1 : listVal l1' < 10 ^ l1'.length :=
          listVal_lt_pow l1' (fun c hc => hd1 c (List.mem_cons_of_mem a hc))
        have h2 : listVal l2' < 10 ^ l2'.length :=
          listVal_lt_pow l2' (fun c hc => hd2 c (List.mem_cons_of_mem b hc))
        simp only [listVal, hlen'] at hval
        have h3 : (charVal b + 1) * 10 ^ l2'.length ≤ charVal a * 10 ^ l2'.length :=
          Nat.mul_le_mul_right _ (by omega)
        have h4 : 0 < 10 ^ l2'.length := Nat.pos_pow_of_pos _ (by omega)
        generalize hx : charVal a * 10 ^ l2'.length = x at *
        generalize hy : charVal b * 10 ^ l2'.length = y at *
        have h5 : (charVal b + 1) * 10 ^ l2'.length = y + 10 ^ l2'.length := by
          rw [← hy]; ring
        omega

/-! ### Facts about the concrete file names -/

lemma digit_ne_comma (c : Char) (h : 48 ≤ c.toNat ∧ c.toNat ≤ 57) : c ≠ ',' := by
  intro he
  subst he
  revert h
  decide

lemma digit_ne_r (c : Char) (h : 48 ≤ c.toNat ∧ c.toNat ≤ 57) : c ≠ 'r' := by
  intro he
  subst he
  revert h
  decide

lemma natStr_digits (n : Nat) : ∀ c ∈ (natStr n).data, 48 ≤ c.toNat ∧ c.toNat ≤ 57 :=
  natChars_digits (n + 1) n (Nat.lt_succ_self n)

lemma pad5_digits (n : Nat) : ∀ c ∈ (pad5 n).data, 48 ≤ c.toNat ∧ c.toNat ≤ 57 := by
  intro c hc
  rcases List.mem_append.mp hc with hc | hc
  · have h0 := List.eq_of_mem_replicate hc
    subst h0
    decide
  · exact natStr_digits n c hc

lemma pad5_data_length (n : Nat) (h : n < 100000) : (pad5 n).data.length = 5 := by
  show (List.replicate (5 - (natStr n).length) '0' ++ (natStr n).data).length = 5
  have h5 : (10 : Nat) ^ 5 = 100000 := by norm_num
  have hle : (natStr n).length ≤ 5 :=
    natChars_length_le (n + 1) n 5 (Nat.lt_succ_self n) (by omega) (by omega)
  have hdata : (natStr n).length = (natStr n).data.length := rfl
  simp only [List.length_append, List.length_replicate]
  omega

lemma listVal_replicate_zero_append (k : Nat) (l : List Char) :
    listVal (List.replicate k '0' ++ l) = listVal l := by
  induction k with
  | zero => rfl
  | succ k ih =>
    show listVal ('0' :: (List.replicate k '0' ++ l)) = listVal l
    have h0 : charVal '0' = 0 := rfl
    simp [listVal, h0, ih]

lemma listVal_pad5 (n : Nat) : listVal (pad5 n).data = n := by
  show listVal (List.replicate (5 - (natStr n).length) '0' ++ (natStr n).data) = n
  rw [listVal_replicate_zero_append]
  exact listVal_natChars (n + 1) n (Nat.lt_succ_self n)

lemma rawName_data (id t : Nat) : (rawName id t).data
    = ((pad5 id).data ++ '_' :: (natStr t).data)
      ++ '_' :: 'r' :: 'a' :: 'w' :: '.' :: 'j' :: 'p' :: 'g' :: [] := by
  show ((pad5 id ++ "_" ++ natStr t ++ "_raw.jpg").data = _)
  simp only [String.data_append, List.append_assoc]
  rfl

lemma labeledName_data (id t : Nat) : (labeledName id t).data
    = (pad5 id).data ++ '_' :: ((natStr t).data ++ '.' :: 'j' :: 'p' :: 'g' :: []) := by
  show ((pad5 id ++ "_" ++ natStr t ++ ".jpg").data = _)
  simp only [String.data_append, List.append_assoc]
  rfl

/-! ### Facts about `stripRaw` -/

lemma stripRawAux_cons_ne (c : Char) (l : List Char) (hc : c ≠ '_') :
    stripRawAux (c :: l) = c :: stripRawAux l := by
  rw [stripRawAux.eq_def]
  split
  · simp_all
  · rename_i heq
    simp only [List.cons.injEq] at heq
    exact absurd heq.1 hc
  · rename_i c' rest heq
    simp only [List.cons.injEq] at heq
    obtain ⟨rfl, rfl⟩ := heq
    rfl

lemma stripRawAux_underscore_ne (d : Char) (l : List Char) (hd : d ≠ 'r') :
    stripRawAux ('_' :: d :: l) = '_' :: stripRawAux (d :: l) := by
  rw [stripRawAux.eq_def]
  split
  · simp_all
  · rename_i heq
    simp only [List.cons.injEq] at heq
    exact absurd heq.2.1 hd
  · rename_i c' rest heq
    simp only [List.cons.injEq] at heq
    obtain ⟨rfl, rfl⟩ := heq
    rfl

/-- Stripping `_raw` from `xs ++ "_raw" ++ ys` when `xs` cannot host an
occurrence (it contains no `r`). -/
lemma stripRawAux_no_r (ys : List Char) :
    ∀ xs : List Char, 'r' ∉ xs →
      stripRawAux (xs ++ '_' :: 'r' :: 'a' :: 'w' :: ys) = xs ++ stripRawAux ys := by
  intro xs
  induction xs with
  | nil => intro; rfl
  | cons c xs ih =>
    intro h
    have hxs : 'r' ∉ xs := fun hm => h (List.mem_cons_of_mem c hm)
    by_cases h2 : c = '_'
    · subst h2
      cases xs with
      | nil => rfl
      | cons d xs' =>
        have hd : d ≠ 'r' := fun hdd => hxs (hdd ▸ List.mem_cons_self d xs')
        rw [List.cons_append, List.cons_append,
          stripRawAux_underscore_ne d _ hd, ← List.cons_append, ih hxs]
        rfl
    · rw [List.cons_append, stripRawAux_cons_ne c _ h2, ih hxs]
      rfl

/-- The labelling worker's output path for a raw snapshot file is exactly the
labelled name: `replace("_raw", "")` turns `00001_2_raw.jpg` into
`00001_2.jpg`. -/
lemma stripRaw_rawName (id t : Nat) : stripRaw (rawName id t) = labeledName id t := by
  have hx : 'r' ∉ ((pad5 id).data ++ '_' :: (natStr t).data) := by
    intro hmem
    rcases List.mem_append.mp hmem with hmem | hmem
    · exact digit_ne_r 'r' (pad5_digits id 'r' hmem) rfl
    · rcases List.mem_cons.mp hmem with h | h
      · exact absurd h (by decide)
      · exact digit_ne_r 'r' (natStr_digits t 'r' h) rfl
  apply String.toList_inj.mp
  show stripRawAux (rawName id t).data = (labeledName id t).data
  rw [rawName_data, stripRawAux_no_r _ _ hx, labeledName_data]
  have h4 : stripRawAux ['.', 'j', 'p', 'g'] = ['.', 'j', 'p', 'g'] := by decide
  simp [List.append_assoc, h4]

lemma rawName_ne_labeledName (id t : Nat) : rawName id t ≠ labeledName id t := by
  intro h
  have h2 := congrArg (fun s => s.data.length) h
  simp only [rawName_data, labeledName_data, List.length_append, List.length_cons] at h2
  omega

/-! ### Facts about `splitComma` and `commaJoin` -/

lemma splitComma_ne_nil (l : List Char) : splitComma l ≠ [] := by
  cases l with
  | nil => simp [splitComma]
  | cons c rest =>
    cases h : splitComma rest with
    | nil => simp [splitComma, h]
    | cons p ps =>
      simp only [splitComma, h]
      split <;> simp

lemma splitComma_no_comma (l : List Char) (h : ∀ c ∈ l, c ≠ ',') :
    splitComma l = [l] := by
  induction l with
  | nil => rfl
  | cons c rest ih =>
    have hc : c ≠ ',' := h c (List.mem_cons_self c rest)
    have hrest := ih (fun d hd => h d (List.mem_cons_of_mem c hd))
    simp [splitComma, hrest, hc]

lemma splitComma_append (r : List Char) :
    ∀ xs : List Char, (∀ c ∈ xs, c ≠ ',') →
      splitComma (xs ++ ',' :: r) = xs :: splitComma r := by
  intro xs
  induction xs with
  | nil =>
    intro
    obtain ⟨p, ps, hps⟩ : ∃ p ps, splitComma r = p :: ps := by
      cases hsr : splitComma r with
      | nil => exact absurd hsr (splitComma_ne_nil r)
      | cons p ps => exact ⟨p, ps, rfl⟩
    simp [splitComma, hps]
  | cons c xs ih =>
    intro h
    have hc : c ≠ ',' := h c (List.mem_cons_self c xs)
    have ih' := ih (fun d hd => h d (List.mem_cons_of_mem c hd))
    simp [splitComma, ih', hc]

lemma commaJoin_data_cons (s : String) (rest : List String) (hr : rest ≠ []) :
    (commaJoin (s :: rest)).data = s.data ++ ',' :: (commaJoin rest).data := by
  cases rest with
  | nil => exact absurd rfl hr
  | cons s2 r2 =>
    show ((s ++ "," ++ commaJoin (s2 :: r2)).data = _)
    simp [String.data_append, List.append_assoc]

/-- Joining comma-free pieces with commas and splitting at commas round-trips:
the membership predicate body decomposes into exactly the requested pieces,
in order. -/
lemma splitComma_commaJoin :
    ∀ ss : List String, ss ≠ [] → (∀ s ∈ ss, ∀ c ∈ s.data, c ≠ ',') →
      splitComma (commaJoin ss).data = ss.map String.data := by
  intro ss
  induction ss with
  | nil => intro h; exact absurd rfl h
  | cons s rest ih =>
    intro _ h
    cases rest with
    | nil =>
      show splitComma s.data = [s.data]
      exact splitComma_no_comma s.data (h s (List.mem_cons_self s []))
    | cons s2 r2 =>
      rw [commaJoin_data_cons s (s2 :: r2) (by simp),
        splitComma_append _ s.data (h s (List.mem_cons_self s (s2 :: r2))),
        ih (by simp) (fun x hx => h x (List.mem_cons_of_mem s hx))]
      rfl

lemma intStr_no_comma (v : Int) : ∀ c ∈ (intStr v).data, c ≠ ',' := by
  intro c hc
  by_cases hv : v < 0
  · simp only [intStr, if_pos hv, String.data_append] at hc
    rcases List.mem_append.mp hc with hc | hc
    · rcases List.mem_singleton.mp (by simpa using hc) with rfl
      decide
    · exact digit_ne_comma c (natStr_digits v.natAbs c hc)
  · simp only [intStr, if_neg hv] at hc
    exact digit_ne_comma c (natStr_digits v.natAbs c hc)

/-! ### The claims -/

/-- C1: `save_frame` is idempotent: a second call on the same record returns
the same path and leaves the directory untouched, and whenever the raw or the
labelled file already exists, `save_frame` returns the raw path without
writing anything. -/
theorem c1_save_frame_idempotent (fs : FS) (id t : Nat) (b1 b2 : Blob) :
    ((save_frame (save_frame fs id t b1).2 id t b2).1 = (save_frame fs id t b1).1
      ∧ (save_frame (save_frame fs id t b1).2 id t b2).2 = (save_frame fs id t b1).2)
    ∧ ((fs.hasFile (labeledName id t) || fs.hasFile (rawName id t)) = true →
        save_frame fs id t b1 = (rawName id t, fs)) := by
  have skip : ∀ (g : FS) (b : Blob),
      (g.hasFile (labeledName id t) || g.hasFile (rawName id t)) = true →
      save_frame g id t b = (rawName id t, g) := by
    intro g b hg
    simp [save_frame, hg]
  constructor
  · cases hc : (FS.hasFile fs (labeledName id t) || FS.hasFile fs (rawName id t)) with
    | true =>
      rw [skip fs b1 hc]
      rw [skip fs b2 hc]
      exact ⟨rfl, rfl⟩
    | false =>
      have h1 : save_frame fs id t b1 = (rawName id t, fs.write (rawName id t) b1) := by
        simp [save_frame, hc]
      have h2cond : ((fs.write (rawName id t) b1).hasFile (labeledName id t)
          || (fs.write (rawName id t) b1).hasFile (rawName id t)) = true := by
        rw [FS.hasFile_write_self]
        simp
      rw [h1, skip (fs.write (rawName id t) b1) b2 h2cond]
      exact ⟨rfl, rfl⟩
  · intro hc
    exact skip fs b1 hc

/-- C1 witness: on a directory already holding `00001_2_raw.jpg`, `save_frame`
returns the raw path and changes nothing. -/
theorem c1_witness :
    save_frame [(("00001_2_raw.jpg" : String), ([9] : Blob))] 1 2 [7]
      = (rawName 1 2, [("00001_2_raw.jpg", [9])]) :=
  (c1_save_frame_idempotent [("00001_2_raw.jpg", [9])] 1 2 [7] [7]).2 (by decide)

/-- C2 counterexample: with a failing external tool (`tool = none`), the
worker still deletes the raw file - line 165 runs `os.remove` without ever
checking the exit status of the `os.system` call on line 164.  The claim
says the raw file is left in place; here it is present before and gone
afterwards (and the labelled file does not exist either). -/
theorem c2_counterexample :
    FS.hasFile [(("00001_2_raw.jpg" : String), ([3] : Blob))] "00001_2_raw.jpg" = true
    ∧ (annotate_image none [(("00001_2_raw.jpg" : String), ([3] : Blob))]
        "00001_2_raw.jpg").1.hasFile "00001_2_raw.jpg" = false
    ∧ (annotate_image none [(("00001_2_raw.jpg" : String), ([3] : Blob))]
        "00001_2_raw.jpg").1.hasFile "00001_2.jpg" = false := by
  decide

/-- C2 amended: when the external tool fails on a frame whose labelled file
does not yet exist, the tool is invoked once, the labelled file still does
not exist afterwards, and - contrary to the claim - the raw file is deleted
anyway, so the frame is left with no file at all and is NOT in a resumable
raw-but-not-labeled state. -/
theorem c2_annotate_failure_deletes_raw (fs : FS) (id t : Nat)
    (h : fs.hasFile (labeledName id t) = false) :
    (annotate_image none fs (rawName id t)).1.hasFile (rawName id t) = false
    ∧ (annotate_image none fs (rawName id t)).1.hasFile (labeledName id t) = false
    ∧ (annotate_image none fs (rawName id t)).2 = 1 := by
  have hout := stripRaw_rawName id t
  have h1 : annotate_image none fs (rawName id t) = (fs.removeFile (rawName id t), 1) := by
    simp [annotate_image, hout, h]
  rw [h1]
  refine ⟨FS.hasFile_removeFile_self fs _, ?_, rfl⟩
  rw [FS.hasFile_removeFile_of_ne _ _ _ (Ne.symm (rawName_ne_labeledName id t))]
  exact h

/-- C2 witness: concrete instance of the amended claim. -/
theorem c2_witness :
    (annotate_image none [(("00001_2_raw.jpg" : String), ([3] : Blob))]
        (rawName 1 2)).1.hasFile (rawName 1 2) = false
    ∧ (annotate_image none [(("00001_2_raw.jpg" : String), ([3] : Blob))]
        (rawName 1 2)).1.hasFile (labeledName 1 2) = false
    ∧ (annotate_image none [(("00001_2_raw.jpg" : String), ([3] : Blob))]
        (rawName 1 2)).2 = 1 :=
  c2_annotate_failure_deletes_raw [("00001_2_raw.jpg", [3])] 1 2 (by decide)

/-- C3: the claim says `get_criteria` joins the two predicates with the
caller's connective.  In the source, line 220 assigns the literal string
`"{id_criteria} {flag} {t_criteria}"` (the `f` prefix is missing, and `flag`
is not even a parameter of `get_criteria`), so with both filters supplied the
returned predicate is that template text, not the joined predicate the claim
describes. -/
theorem c3_get_criteria_literal_template :
    get_criteria (some (.fl [3])) (some (.fl [100]))
      = .ok (some "{id_criteria} {flag} {t_criteria}")
    ∧ "{id_criteria} {flag} {t_criteria}" ≠ "id in (3) OR t in (100)" := by
  exact ⟨rfl, by decide⟩

/-- C4: the claim says an integer value yields the equality predicate
`column = value`.  In the source, line 84 evaluates `isinstance(value,
Integer)` where `Integer` is an undefined name, so every non-list value -
integers included - raises `NameError` instead; neither the equality
predicate on line 85 nor the intended `InvalidFilterValue` exception on
line 88 is reachable. -/
theorem c4_make_criteria_integer_name_error :
    make_criteria "id" (.fi 5) = .error (.nameError "Integer")
    ∧ make_criteria "id" .fother = .error (.nameError "Integer") :=
  ⟨rfl, rfl⟩

/-- C5 counterexample: starting from a directory where BOTH the raw and the
labelled file for frame `(1, 2)` exist, the worker returns with both still
present: the skip branch (line 160-161) returns without deleting the raw
file, so "at most one of raw/labeled exists after the worker returns" fails,
and so does "running annotation on a frame whose labelled file exists leaves
no raw file behind". -/
theorem c5_counterexample :
    (annotate_image (some [7])
        [(("00001_2_raw.jpg" : String), ([1] : Blob)), (("00001_2.jpg" : String), ([2] : Blob))]
        (rawName 1 2)).1.hasFile (rawName 1 2) = true
    ∧ (annotate_image (some [7])
        [(("00001_2_raw.jpg" : String), ([1] : Blob)), (("00001_2.jpg" : String), ([2] : Blob))]
        (rawName 1 2)).1.hasFile (labeledName 1 2) = true := by
  decide

/-- C5 amended: if the labelled file does not exist before the worker runs,
then afterwards the raw file is gone (whether or not the tool succeeded), so
at most one of the two files exists; if the labelled file does already
exist, the worker leaves the directory completely unchanged - in particular
a pre-existing raw file stays behind, which is what the original claim
missed. -/
theorem c5_at_most_one_after (tool : Option Blob) (fs : FS) (id t : Nat) :
    (fs.hasFile (labeledName id t) = false →
      (annotate_image tool fs (rawName id t)).1.hasFile (rawName id t) = false
      ∧ ¬((annotate_image tool fs (rawName id t)).1.hasFile (rawName id t) = true
          ∧ (annotate_image tool fs (rawName id t)).1.hasFile (labeledName id t) = true))
    ∧ (fs.hasFile (labeledName id t) = true →
        (annotate_image tool fs (rawName id t)).1 = fs) := by
  have hout := stripRaw_rawName id t
  constructor
  · intro h
    have hraw : (annotate_image tool fs (rawName id t)).1.hasFile (rawName id t) = false := by
      cases tool with
      | none => simp [annotate_image, hout, h, FS.hasFile_removeFile_self]
      | some b => simp [annotate_image, hout, h, FS.hasFile_removeFile_self]
    refine ⟨hraw, fun hc => ?_⟩
    rw [hraw] at hc
    exact absurd hc.1 (by simp)
  · intro h
    simp [annotate_image, hout, h]

/-- C5 witness: concrete instance of the amended claim (labelled file
present, worker changes nothing). -/
theorem c5_witness :
    (annotate_image (some [7]) [(("00001_2.jpg" : String), ([2] : Blob))] (rawName 1 2)).1
      = [("00001_2.jpg", [2])] :=
  (c5_at_most_one_after (some [7]) [("00001_2.jpg", [2])] 1 2).2 (by decide)

/-- C6: running the per-frame annotation step twice on the same frame, with a
tool that writes its output when invoked, performs at most one tool
invocation in total; and whenever the labelled output already exists the step
returns immediately - no invocation, no file written, state unchanged. -/
theorem c6_annotate_twice_single_invocation (b1 b2 : Blob) (fs : FS) (id t : Nat) :
    ((annotate_image (some b1) fs (rawName id t)).2
        + (annotate_image (some b2)
            (annotate_image (some b1) fs (rawName id t)).1 (rawName id t)).2 ≤ 1)
    ∧ (∀ tool : Option Blob, fs.hasFile (labeledName id t) = true →
        annotate_image tool fs (rawName id t) = (fs, 0)) := by
  have hout := stripRaw_rawName id t
  have skip : ∀ (tool : Option Blob) (g : FS), g.hasFile (labeledName id t) = true →
      annotate_image tool g (rawName id t) = (g, 0) := by
    intro tool g hg
    simp [annotate_image, hout, hg]
  constructor
  · cases hc : FS.hasFile fs (labeledName id t) with
    | true =>
      rw [skip (some b1) fs hc]
      rw [skip (some b2) fs hc]
      simp
    | false =>
      have h1 : annotate_image (some b1) fs (rawName id t)
          = ((fs.write (labeledName id t) b1).removeFile (rawName id t), 1) := by
        simp [annotate_image, hout, hc]
      have h2 : ((fs.write (labeledName id t) b1).removeFile (rawName id t)).hasFile
          (labeledName id t) = true := by
        rw [FS.hasFile_removeFile_of_ne _ _ _ (Ne.symm (rawName_ne_labeledName id t))]
        exact FS.hasFile_write_self fs (labeledName id t) b1
      rw [h1, skip (some b2) _ h2]
      simp
  · intro tool h
    exact skip tool fs h

/-- C6 witness: with `00001_2.jpg` already present, the step is a no-op with
zero tool invocations. -/
theorem c6_witness :
    annotate_image (some [5]) [(("00001_2.jpg" : String), ([1] : Blob))] (rawName 1 2)
      = ([("00001_2.jpg", [1])], 0) :=
  (c6_annotate_twice_single_invocation [5] [5] [("00001_2.jpg", [1])] 1 2).2
    (some [5]) (by decide)

/-- C7 counterexample: the `t` field is rendered with `%i`, NOT zero-padded,
so lexicographic order disagrees with chronological order for equal ids:
frame `(1, 9)` is chronologically earlier than `(1, 10)`, yet its file name
`00001_9.jpg` sorts lexicographically after `00001_10.jpg`. -/
theorem c7_counterexample :
    9 < 10 ∧ labeledName 1 10 < labeledName 1 9 := by
  constructor
  · omega
  · apply String.lt_iff_toList_lt.mpr
    show (labeledName 1 10).data < (labeledName 1 9).data
    decide

/-- C7 amended: only the id field is fixed-width (5 digits).  For frames with
DISTINCT ids, both below `100000`, lexicographic file-name order does agree
with id order regardless of the `t` values; for equal ids the claim fails
(see the counterexample) because `t` is not padded. -/
theorem c7_lex_by_id (id1 t1 id2 t2 : Nat) (h : id1 < id2) (h2 : id2 < 100000) :
    labeledName id1 t1 < labeledName id2 t2 := by
  apply String.lt_iff_toList_lt.mpr
  show (labeledName id1 t1).data < (labeledName id2 t2).data
  rw [labeledName_data, labeledName_data]
  exact lex_append_of_listVal_lt (pad5 id1).data (pad5 id2).data _ _
    (by rw [pad5_data_length id1 (by omega), pad5_data_length id2 h2])
    (pad5_digits id1) (pad5_digits id2)
    (by rw [listVal_pad5 id1, listVal_pad5 id2]; exact h)

/-- C7 witness: the spec's own example ids, `2 < 10`, any times. -/
theorem c7_witness : labeledName 2 100 < labeledName 10 9999 :=
  c7_lex_by_id 2 100 10 9999 (by omega) (by omega)

/-- C8 counterexample: the source never checks for the empty list, so
`make_criteria` happily returns the degenerate predicate `"id in ()"` for an
empty list instead of failing with `InvalidFilterValue` as the claim
states. -/
theorem c8_counterexample_empty_list :
    make_criteria "id" (.fl []) = .ok "id in ()" :=
  rfl

/-- C8 amended: for every NON-empty integer list the result is the membership
predicate `column in (v1,...,vk)` whose body, split at the commas, is exactly
the decimal forms of the listed values - each exactly once, in the given
order; the empty list does not fail but produces `column in ()`. -/
theorem c8_membership_predicate (column : String) (vs : List Int) (h : vs ≠ []) :
    ∃ body, make_criteria column (.fl vs) = .ok (column ++ " in (" ++ body ++ ")")
      ∧ splitComma body.data = (vs.map intStr).map String.data := by
  refine ⟨commaJoin (vs.map intStr), rfl, ?_⟩
  apply splitComma_commaJoin
  · simp [h]
  · intro s hs c hc
    rcases List.mem_map.mp hs with ⟨v, hv, rfl⟩
    exact intStr_no_comma v c hc

/-- C8 witness: concrete instance for the list `[3, 5]`. -/
theorem c8_witness :
    ∃ body, make_criteria "id" (.fl [3, 5]) = .ok ("id" ++ " in (" ++ body ++ ")")
      ∧ splitComma body.data = (([3, 5] : List Int).map intStr).map String.data :=
  c8_membership_predicate "id" [3, 5] (by simp)

/-- C9: `get_frame` with no predicate returns the distinguished `none` (not
an empty list) and runs zero queries, and `run` with neither filter falls
back to listing the `*.jpg` files of the snapshot directory. -/
theorem c9_none_fallback (query : String → List (Nat × Nat × Blob)) (env : Env)
    (fs : FS) (a : Bool) (fl : String) :
    get_frame query fs none = (none, fs, 0)
    ∧ run env fs none none fl a false = (.ok (list_snapshots fs), fs) := by
  constructor
  · rfl
  · simp [run, get_criteria, get_frame, truthy]

/-- C10: `get_t0` returns 0 when no `date_time` row is present in the
metadata, and otherwise the float conversion of the LAST `date_time` row's
value. -/
theorem c10_get_t0_last_date_time (toFloat : String → Rat)
    (rows l1 l2 : List (String × String)) (v : String) :
    ((∀ fv ∈ rows, fv.1 ≠ "date_time") → get_t0 toFloat rows = 0)
    ∧ ((∀ fv ∈ l2, fv.1 ≠ "date_time") →
        get_t0 toFloat (l1 ++ ("date_time", v) :: l2) = toFloat v) := by
  have hkeep : ∀ (l : List (String × String)) (acc : Rat),
      (∀ fv ∈ l, fv.1 ≠ "date_time") →
      l.foldl (fun t0 fv => if fv.1 == "date_time" then toFloat fv.2 else t0) acc = acc := by
    intro l
    induction l with
    | nil => intro acc _; rfl
    | cons e l ih =>
      intro acc h
      have he : (e.1 == "date_time") = false :=
        beq_eq_false_iff_ne.mpr (h e (List.mem_cons_self e l))
      rw [List.foldl_cons, if_neg (by simp [he])]
      exact ih acc (fun fv hfv => h fv (List.mem_cons_of_mem e hfv))
  constructor
  · intro h
    exact hkeep rows 0 h
  · intro h
    show (l1 ++ ("date_time", v) :: l2).foldl
        (fun t0 fv => if fv.1 == "date_time" then toFloat fv.2 else t0) 0 = toFloat v
    rw [List.foldl_append, List.foldl_cons, if_pos (by rfl)]
    exact hkeep l2 (toFloat v) h

/-- C10 witness: a metadata table with no `date_time` row gives 0, and with
two `date_time` rows the last one wins. -/
theorem c10_witness :
    get_t0 (fun s => (s.length : Rat)) [("foo", "1")] = 0
    ∧ get_t0 (fun s => (s.length : Rat))
        [("date_time", "1"), ("date_time", "22"), ("other", "z")]
      = ((("22" : String).length : Nat) : Rat) := by
  have h := c10_get_t0_last_date_time (fun s => (s.length : Rat))
    [("foo", "1")] [("date_time", "1")] [("other", "z")] "22"
  exact ⟨h.1 (by decide), h.2 (by decide)⟩

end Imager
